import Mathlib

set_option maxRecDepth 40000

/-!
Verification of the lora-module-updater host tools: a shallow embedding of
the frame codec (src/module-updater/src/gateway.rs and
src/soil-sensor-reader/src/gateway.rs) and of the OTA transfer loop
(src/module-updater/src/main.rs), together with proofs and refutations of
the specified properties.

Bytes are modelled as natural numbers below 256.  u8 arithmetic that can
overflow in the source is modelled with the release-mode wrapping semantics
(explicit % 256).  A Rust panic (out-of-bounds array write) aborts the
process instead of returning an error value; it is modelled by the extra
error constructor `panicked`, distinct from the `GatewayError` variants the
source can actually return.
-/

/-- Mirrors `enum GatewayError` of both gateway.rs files, plus `panicked`,
which models a Rust panic (an out-of-bounds array index), an outcome the
source aborts on rather than returning. -/
inductive GatewayError where
  | readTimeout
  | overflow
  | serde
  | invalidResponse
  | panicked
deriving DecidableEq, Repr

namespace SoilSensorReader

/-- The byte-stuffing loop of `GatewayDriver::write` in
src/soil-sensor-reader/src/gateway.rs (lines 40-58), acting on the
postcard-serialized payload bytes.  `j` is the write position into the
256-byte `encoded` buffer.  The returned list is `encoded[..j]` followed by
the terminator, i.e. the frame put on the wire.  The source writes
`encoded[j] = max_val; encoded[j+1] = to_encode[i] - max_val` after checking
only `j >= encoded.len()`, so the second write panics when `j + 1 = 256`;
likewise the terminator write `encoded[j] = 0xff` panics when `j = 256`. -/
def write_loop : List Nat → Nat → Except GatewayError (List Nat)
  | [], j => if 256 ≤ j then .error .panicked else .ok [255]
  | b :: rest, j =>
    if 256 ≤ j then .error .overflow
    else if 254 ≤ b then
      if 256 ≤ j + 1 then .error .panicked
      else (write_loop rest (j + 2)).map (fun tail => 254 :: (b - 254) :: tail)
    else (write_loop rest (j + 1)).map (fun tail => b :: tail)

/-- `GatewayDriver::write` of src/soil-sensor-reader/src/gateway.rs with the
serialization step abstracted: the input is the serialized payload, the
output the encoded frame (terminator included). -/
def write (payload : List Nat) : Except GatewayError (List Nat) :=
  write_loop payload 0

end SoilSensorReader

namespace ModuleUpdater

/-- The byte-stuffing loop of `GatewayDriver::write` in
src/module-updater/src/gateway.rs (lines 40-63).  For a byte equal to
`max_val = 254` it emits nothing and sets `next_add`; the following byte is
emitted as `to_encode[i] + max_val` (u8 wrapping, modelled by % 256).
The terminator write `encoded[j] = 0xff` panics when `j = 256`. -/
def write_loop : List Nat → Nat → Bool → Except GatewayError (List Nat)
  | [], j, _ => if 256 ≤ j then .error .panicked else .ok [255]
  | b :: rest, j, next_add =>
    if 256 ≤ j then .error .overflow
    else if b = 254 then write_loop rest j true
    else (write_loop rest (j + 1) false).map
      (fun tail => (if next_add then (b + 254) % 256 else b) :: tail)

/-- `GatewayDriver::write` of src/module-updater/src/gateway.rs with the
serialization step abstracted. -/
def write (payload : List Nat) : Except GatewayError (List Nat) :=
  write_loop payload 0 false

end ModuleUpdater

/-- The decode loop of `GatewayDriver::read_with_timeout`, identical in
src/module-updater/src/gateway.rs (lines 72-112) and
src/soil-sensor-reader/src/gateway.rs (lines 69-109), acting on the octet
stream delivered by the port.  Octets are consumed one at a time until the
terminator 0xFF; `j` is the write position into the 256-byte `buffer`;
`next_add` is the pending-escape flag.  An exhausted stream with no
terminator is the read-timeout outcome.  `buffer[j] + max_val` uses u8
wrapping semantics (% 256). -/
def read_loop : List Nat → Nat → Bool → Except GatewayError (List Nat)
  | [], _, _ => .error .readTimeout
  | b :: rest, j, next_add =>
    if b = 255 then .ok []
    else if 256 ≤ j then .error .overflow
    else if b = 254 then read_loop rest j true
    else (read_loop rest (j + 1) false).map
      (fun tail => (if next_add then (b + 254) % 256 else b) :: tail)

/-- `GatewayDriver::read_with_timeout` with the port and deserialization
abstracted: the input is the octet stream arriving on the wire, the output
the decoded payload bytes. -/
def read_with_timeout (wire : List Nat) : Except GatewayError (List Nat) :=
  read_loop wire 0 false

/-- The escaped image of one payload byte under the correct encoding rule:
a byte ≥ 0xFE becomes the pair (0xFE, b - 0xFE), any other byte is kept. -/
def escByte (b : Nat) : List Nat :=
  if 254 ≤ b then [254, b - 254] else [b]

/-- The escaped image of a whole payload (frame body, terminator not
included). -/
def escConcat : List Nat → List Nat
  | [] => []
  | b :: rest => escByte b ++ escConcat rest

/-- `index_count` of src/module-updater/src/main.rs (lines 69-76): the
number of blocks the image is split into. -/
def index_count (len bs : Nat) : Nat :=
  if len % bs = 0 then len / bs else len / bs + 1

/-- `block_size` of src/module-updater/src/main.rs (line 69). -/
def block_size : Nat := 64

/-- `begin` of the block slice, src/module-updater/src/main.rs line 139. -/
def block_begin (bs i : Nat) : Nat := i * bs

/-- `end` of the block slice, src/module-updater/src/main.rs lines 140-146:
`if (i + 1) * block_size >= binary.len() { binary.len() - 1 } else
{ (i + 1) * block_size }`. -/
def block_end (len bs i : Nat) : Nat :=
  if (i + 1) * bs ≥ len then len - 1 else (i + 1) * bs

/-- The bytes `binary[begin..end]` sent for block `i`
(src/module-updater/src/main.rs line 151). -/
def block_data (binary : List Nat) (bs i : Nat) : List Nat :=
  (binary.drop (block_begin bs i)).take (block_end binary.length bs i - block_begin bs i)

/-- The corrected slicing bound the spec prescribes in section 4.3: block `i`
covers bytes `[i * block_size, min ((i + 1) * block_size, image_length))`.
Stated from the spec's words, for comparison with `block_end` above. -/
def spec_block_end (len bs i : Nat) : Nat := min ((i + 1) * bs) len

/-- The payload of a `GatewayPacket::OtaStatus` response, as the transfer
loop consumes it (src/module-updater/src/main.rs lines 157-169). -/
structure OtaStatusMsg where
  in_progress : Bool
  not_acked : List Nat
  last_acked : Nat
deriving DecidableEq, Repr

/-- The four-way case distinction the transfer loop makes on the result of
`read_with_timeout` (src/module-updater/src/main.rs lines 155-181):
a status response, the done acknowledgement, any other packet, or a read
error (timeout included). -/
inductive Resp where
  | otaStatus (st : OtaStatusMsg)
  | otaDoneAck
  | otherPacket
  | readErr
deriving DecidableEq, Repr

/-- The mutable state of the transfer loop
(src/module-updater/src/main.rs lines 112-114).  `indexes_to_transmit`
models the `Vec<u16>` with its push/pop end (the Vec's tail) at the HEAD of
the list, so `Vec::push` is cons and `Vec::pop` takes the head; membership
and emptiness agree with the Vec's. -/
structure OtaState where
  indexes_to_transmit : List Nat
  highest_index : Nat
  last_acked_index : Nat
deriving DecidableEq, Repr

/-- The initial loop state (src/module-updater/src/main.rs lines 112-114). -/
def initState : OtaState := ⟨[], 0, 0⟩

/-- What one round of the transfer loop writes to the gateway. -/
inductive SentPacket where
  | otaDoneRequest
  | otaData (index : Nat) (data : List Nat)
deriving DecidableEq, Repr

/-- The send half of one round of the transfer loop
(src/module-updater/src/main.rs lines 122-153): either the done request
(retransmit set empty and the frontier has covered every block), or a block
popped from `indexes_to_transmit`, or the frontier block `highest_index`,
advancing the frontier only when `last_acked_index + 12 >= highest_index`. -/
def sendPhase (binary : List Nat) (s : OtaState) : OtaState × SentPacket :=
  if s.indexes_to_transmit = [] ∧ s.highest_index = index_count binary.length block_size then
    (s, SentPacket.otaDoneRequest)
  else
    match s.indexes_to_transmit with
    | i :: rest =>
      (⟨rest, s.highest_index, s.last_acked_index⟩,
       SentPacket.otaData i (block_data binary block_size i))
    | [] =>
      if s.last_acked_index + 12 ≥ s.highest_index then
        (⟨[], s.highest_index + 1, s.last_acked_index⟩,
         SentPacket.otaData s.highest_index (block_data binary block_size s.highest_index))
      else
        (⟨[], s.highest_index, s.last_acked_index⟩,
         SentPacket.otaData s.highest_index (block_data binary block_size s.highest_index))

/-- The NACK merge of src/module-updater/src/main.rs lines 158-166: each
reported index is pushed onto `indexes_to_transmit` unless already present. -/
def mergeNacks (l nas : List Nat) : List Nat :=
  nas.foldl (fun acc na => if na ∈ acc then acc else na :: acc) l

/-- Outcome of one round: continue with a new state, or break out of the
loop (the `break` on `OtaDoneAck`). -/
inductive RoundOut where
  | next (s : OtaState)
  | done (s : OtaState)
deriving DecidableEq, Repr

/-- One full round of the transfer loop
(src/module-updater/src/main.rs lines 122-186): the send phase followed by
the match on the receive result.  A status response merges the reported
NACKs and overwrites `last_acked_index`; `OtaDoneAck` breaks the loop; any
other packet and any read error are logged and the loop continues. -/
def otaRound (binary : List Nat) (s : OtaState) (r : Resp) : RoundOut :=
  let s1 := (sendPhase binary s).1
  match r with
  | Resp.otaStatus st =>
    RoundOut.next ⟨mergeNacks s1.indexes_to_transmit st.not_acked, s1.highest_index, st.last_acked⟩
  | Resp.otaDoneAck => RoundOut.done s1
  | Resp.otherPacket => RoundOut.next s1
  | Resp.readErr => RoundOut.next s1

/-- The state carried out of a round regardless of outcome. -/
def outState : RoundOut → OtaState
  | RoundOut.next s => s
  | RoundOut.done s => s

/-- The state transformer of one round. -/
def loopStep (binary : List Nat) (s : OtaState) (r : Resp) : OtaState :=
  outState (otaRound binary s r)

/-- Iterating the transfer loop over a list of receive results. -/
def run (binary : List Nat) (s : OtaState) (rs : List Resp) : OtaState :=
  rs.foldl (loopStep binary) s

/-- States the transfer loop can reach from its initial state, under
arbitrary receive results. -/
inductive Reach (binary : List Nat) : OtaState → Prop
  | init : Reach binary initState
  | next {s : OtaState} (r : Resp) : Reach binary s → Reach binary (loopStep binary s r)

/-- A receive result is ack-monotone for state `s` when, if it is a status
response, its `last_acked` does not fall below the loop's current
`last_acked_index`. -/
def RespMono (s : OtaState) (r : Resp) : Prop :=
  ∀ st, r = Resp.otaStatus st → s.last_acked_index ≤ st.last_acked

/-- States reachable when every status response reports a `last_acked` that
never regresses below the current one. -/
inductive ReachMono (binary : List Nat) : OtaState → Prop
  | init : ReachMono binary initState
  | next {s : OtaState} (r : Resp) :
      ReachMono binary s → RespMono s r → ReachMono binary (loopStep binary s r)

/-- A 832-byte image: with block size 64 it has exactly 13 blocks. -/
def binary832 : List Nat := List.replicate 832 0

/-- A 400-byte image: with block size 64 it has 7 blocks. -/
def binary400 : List Nat := List.replicate 400 1

/-- The transfer-loop state of the spec's retransmission scenario:
`nacked_indices = [1]`, `highest_sent_index = 4`, `last_acked_index = 2`. -/
def scenState : OtaState := ⟨[1], 4, 2⟩

/-! ## Frame-codec lemmas -/

/-- The escaped image of a payload is at most twice as long. -/
theorem escConcat_length_le (x : List Nat) : (escConcat x).length ≤ 2 * x.length := by
  induction x with
  | nil => simp [escConcat]
  | cons b rest ih =>
    simp only [escConcat, escByte, List.length_append, List.length_cons]
    split <;> simp_all <;> omega

/-- As long as the escaped payload fits strictly inside the 256-byte buffer,
the soil-sensor-reader encoder returns exactly the escaped payload followed
by the terminator. -/
theorem write_loop_eq_escConcat (x : List Nat) :
    ∀ j, j + (escConcat x).length ≤ 255 →
      SoilSensorReader.write_loop x j = Except.ok (escConcat x ++ [255]) := by
  induction x with
  | nil =>
    intro j hj
    simp only [SoilSensorReader.write_loop, escConcat, List.nil_append]
    rw [if_neg (by omega)]
  | cons b rest ih =>
    intro j hj
    simp only [escConcat, escByte] at hj ⊢
    by_cases hb : 254 ≤ b
    · rw [if_pos hb] at hj ⊢
      simp only [List.length_append, List.length_cons, List.length_nil] at hj
      simp only [SoilSensorReader.write_loop]
      rw [if_neg (by omega), if_pos hb, if_neg (by omega), ih (j + 2) (by omega)]
      simp [Except.map]
    · rw [if_neg hb] at hj ⊢
      simp only [List.length_append, List.length_cons, List.length_nil] at hj
      simp only [SoilSensorReader.write_loop]
      rw [if_neg (by omega), if_neg hb, ih (j + 1) (by omega)]
      simp [Except.map]

/-- Unfolding step of the decode loop at the terminator octet. -/
theorem read_loop_terminator (rest : List Nat) (j : Nat) (na : Bool) :
    read_loop (255 :: rest) j na = Except.ok [] := by
  simp [read_loop]

/-- Unfolding step of the decode loop at an escape octet. -/
theorem read_loop_escape (rest : List Nat) (j : Nat) (na : Bool) (hj : ¬ 256 ≤ j) :
    read_loop (254 :: rest) j na = read_loop rest j true := by
  simp [read_loop, hj]

/-- Unfolding step of the decode loop at an ordinary octet. -/
theorem read_loop_plain (b : Nat) (rest : List Nat) (j : Nat) (na : Bool)
    (h5 : b ≠ 255) (hj : ¬ 256 ≤ j) (h4 : b ≠ 254) :
    read_loop (b :: rest) j na
      = (read_loop rest (j + 1) false).map
          (fun tail => (if na then (b + 254) % 256 else b) :: tail) := by
  simp [read_loop, h5, hj, h4]

/-- Feeding an escaped payload followed by the terminator to the shared
decode loop recovers the payload, from any buffer position that leaves room
for every emitted byte. -/
theorem read_loop_escConcat (x : List Nat) :
    ∀ j, (∀ b ∈ x, b < 256) → j + x.length ≤ 255 →
      read_loop (escConcat x ++ [255]) j false = Except.ok x := by
  induction x with
  | nil =>
    intro j _ _
    simp only [escConcat, List.nil_append]
    exact read_loop_terminator [] j false
  | cons b rest ih =>
    intro j hb256 hj
    have hblt : b < 256 := hb256 b (by simp)
    have hrest : ∀ b ∈ rest, b < 256 := fun y hy => hb256 y (by simp [hy])
    simp only [List.length_cons] at hj
    by_cases hb : 254 ≤ b
    · have hshape : escConcat (b :: rest) ++ [255]
          = 254 :: (b - 254) :: (escConcat rest ++ [255]) := by
        simp [escConcat, escByte, hb]
      rw [hshape, read_loop_escape _ _ _ (by omega),
        read_loop_plain (b - 254) _ j true (by omega) (by omega) (by omega),
        ih (j + 1) hrest (by omega)]
      have hbeq : (b - 254 + 254) % 256 = b := by omega
      simp [Except.map, hbeq]
    · have hshape : escConcat (b :: rest) ++ [255]
          = b :: (escConcat rest ++ [255]) := by
        simp [escConcat, escByte, hb]
      rw [hshape, read_loop_plain b _ j false (by omega) (by omega) (by omega),
        ih (j + 1) hrest (by omega)]
      simp [Except.map]

/-- No byte of an escaped payload equals the terminator value. -/
theorem escConcat_ne_terminator (x : List Nat) (hx : ∀ b ∈ x, b < 256) :
    ∀ y ∈ escConcat x, y ≠ 255 := by
  induction x with
  | nil => simp [escConcat]
  | cons b rest ih =>
    intro y hy
    have hblt : b < 256 := hx b (by simp)
    simp only [escConcat, escByte, List.mem_append] at hy
    rcases hy with hy | hy
    · by_cases hb : 254 ≤ b
      · rw [if_pos hb] at hy
        simp only [List.mem_cons, List.not_mem_nil, or_false] at hy
        rcases hy with rfl | rfl <;> omega
      · rw [if_neg hb] at hy
        simp only [List.mem_cons, List.not_mem_nil, or_false] at hy
        subst hy; omega
    · exact ih (fun y hy => hx y (by simp [hy])) y hy

/-! ## Claims about the frame codec -/

/-- C1: round trip of the frame codec.  For every payload of length at most
127 bytes (so its escaped encoding always fits the 256-byte frame buffer),
the soil-sensor-reader encoder paired with the shared decoder returns the
payload exactly.  The module-updater encoder does NOT round-trip: the
one-byte payload [0xFE] encodes to the bare terminator frame, which decodes
to the empty payload. -/
theorem roundtrip_C1 :
    (∀ x : List Nat, (∀ b ∈ x, b < 256) → x.length ≤ 127 →
      ∃ f, SoilSensorReader.write x = Except.ok f ∧ read_with_timeout f = Except.ok x)
    ∧ ModuleUpdater.write [254] = Except.ok [255]
    ∧ read_with_timeout [255] = Except.ok ([] : List Nat) := by
  refine ⟨?_, rfl, rfl⟩
  intro x hx hlen
  have h2 : (escConcat x).length ≤ 2 * x.length := escConcat_length_le x
  exact ⟨escConcat x ++ [255],
    write_loop_eq_escConcat x 0 (by omega),
    read_loop_escConcat x 0 hx (by omega)⟩

/-- Witness for C1: the round trip at the concrete payload [1, 0xFE, 0xFF]. -/
theorem roundtrip_C1_witness :
    ∃ f, SoilSensorReader.write [1, 254, 255] = Except.ok f
      ∧ read_with_timeout f = Except.ok [1, 254, 255] :=
  roundtrip_C1.1 [1, 254, 255] (by decide) (by decide)

/-- C4: totality of the codec.  The claim fails on the code: a payload of
128 bytes all equal to 0xFF has an escaped encoding of exactly 256 bytes,
so the terminator write `encoded[j] = 0xff` indexes `encoded[256]` and the
encoder panics (out-of-bounds write) instead of returning Overflow; a
256-byte plain payload drives the module-updater encoder into the same
out-of-bounds terminator write.  The decoder does stay total on an escape
octet followed by an arbitrary octet (release-mode wrapping: 0xFE 0x05
decodes to 0x03). -/
theorem totality_C4 :
    SoilSensorReader.write (List.replicate 128 255) = Except.error GatewayError.panicked
    ∧ ModuleUpdater.write (List.replicate 256 0) = Except.error GatewayError.panicked
    ∧ read_with_timeout [254, 5, 255] = Except.ok [3] :=
  ⟨rfl, rfl, rfl⟩

/-- C5: terminator safety and escape correctness.  For the
soil-sensor-reader encoder every successful frame is exactly the escaped
payload (each byte ≥ 0xFE expanded to precisely (0xFE, b - 0xFE)) followed
by one terminator, and no byte before the final one equals 0xFF.  The
module-updater encoder violates the property: the payload [0xFF] encodes to
the frame [0xFF, 0xFF], whose first byte is an unescaped terminator value
before the end of the frame. -/
theorem terminator_C5 :
    (∀ x : List Nat, (∀ b ∈ x, b < 256) → (escConcat x).length ≤ 255 →
      SoilSensorReader.write x = Except.ok (escConcat x ++ [255])
      ∧ ∀ y ∈ escConcat x, y ≠ 255)
    ∧ ModuleUpdater.write [255] = Except.ok [255, 255] := by
  refine ⟨?_, rfl⟩
  intro x hx hlen
  exact ⟨write_loop_eq_escConcat x 0 (by omega), escConcat_ne_terminator x hx⟩

/-- Witness for C5: the encoded frame and terminator safety at the concrete
payload [0xFE]. -/
theorem terminator_C5_witness :
    SoilSensorReader.write [254] = Except.ok (escConcat [254] ++ [255])
    ∧ ∀ y ∈ escConcat [254], y ≠ 255 :=
  terminator_C5.1 [254] (by decide) (by decide)

/-! ## Block-partition lemmas -/

/-- `index_count` computes the ceiling of `len / bs`. -/
theorem index_count_eq_ceil (len bs : Nat) (hbs : 0 < bs) :
    index_count len bs = (len + bs - 1) / bs := by
  have hm : bs * (len / bs) + len % bs = len := Nat.div_add_mod len bs
  have hr : len % bs < bs := Nat.mod_lt _ hbs
  unfold index_count
  by_cases h0 : len % bs = 0
  · rw [if_pos h0]
    have e1 : len + bs - 1 = (bs - 1) + bs * (len / bs) := by omega
    have d1 : (bs - 1) / bs = 0 := Nat.div_eq_of_lt (by omega)
    rw [e1, Nat.add_mul_div_left _ _ hbs, d1]
    omega
  · rw [if_neg h0]
    have e1 : len + bs - 1 = (len % bs - 1) + bs * (len / bs + 1) := by
      have e2 : bs * (len / bs + 1) = bs * (len / bs) + bs := by ring
      omega
    have d1 : (len % bs - 1) / bs = 0 := Nat.div_eq_of_lt (by omega)
    rw [e1, Nat.add_mul_div_left _ _ hbs, d1]
    omega

/-- A block index below the block count starts strictly inside the image. -/
theorem mul_lt_of_lt_index_count (len bs i : Nat) (hbs : 0 < bs)
    (hi : i < index_count len bs) : i * bs < len := by
  have hm : bs * (len / bs) + len % bs = len := Nat.div_add_mod len bs
  have hr : len % bs < bs := Nat.mod_lt _ hbs
  unfold index_count at hi
  by_cases h0 : len % bs = 0
  · rw [if_pos h0] at hi
    have h1 : (i + 1) * bs ≤ (len / bs) * bs := mul_le_mul_right' (by omega) bs
    have e1 : (i + 1) * bs = i * bs + bs := by ring
    have e2 : (len / bs) * bs = bs * (len / bs) := by ring
    omega
  · rw [if_neg h0] at hi
    have h1 : i * bs ≤ (len / bs) * bs := mul_le_mul_right' (by omega) bs
    have e2 : (len / bs) * bs = bs * (len / bs) := by ring
    omega

/-- The slice bounds of a block whose index is inside the image are a valid
Rust range into the image. -/
theorem block_bounds (len bs i : Nat) (hbs : 0 < bs) (hlt : i * bs < len) :
    block_begin bs i ≤ block_end len bs i ∧ block_end len bs i ≤ len := by
  unfold block_begin block_end
  have e : (i + 1) * bs = i * bs + bs := by ring
  split <;> omega

/-! ## Transfer-loop structural lemmas -/

/-- Case analysis of the send phase: it leaves the state unchanged (done
request, or full window), or pops the head of the retransmit list, or
advances the frontier by one, the latter only when the window guard
`last_acked_index + 12 >= highest_index` holds and the frontier has not yet
covered every block. -/
theorem sendPhase_state_cases (binary : List Nat) (s : OtaState) :
    (sendPhase binary s).1 = s
    ∨ (∃ i rest, s.indexes_to_transmit = i :: rest
        ∧ (sendPhase binary s).1 = ⟨rest, s.highest_index, s.last_acked_index⟩)
    ∨ (s.indexes_to_transmit = []
        ∧ s.highest_index ≤ s.last_acked_index + 12
        ∧ s.highest_index ≠ index_count binary.length block_size
        ∧ (sendPhase binary s).1 = ⟨[], s.highest_index + 1, s.last_acked_index⟩) := by
  rcases s with ⟨ts, hi, la⟩
  cases ts with
  | cons i rest =>
    right; left
    exact ⟨i, rest, rfl, by simp [sendPhase]⟩
  | nil =>
    by_cases hd : hi = index_count binary.length block_size
    · left
      simp [sendPhase, hd]
    · by_cases hg : la + 12 ≥ hi
      · right; right
        refine ⟨rfl, ?_, hd, ?_⟩
        · show hi ≤ la + 12
          omega
        · simp [sendPhase, hd, hg]
      · left
        simp [sendPhase, hd, hg]

/-- The send phase never touches `last_acked_index`. -/
theorem sendPhase_last_acked (binary : List Nat) (s : OtaState) :
    (sendPhase binary s).1.last_acked_index = s.last_acked_index := by
  rcases sendPhase_state_cases binary s with h | ⟨i, rest, _, h⟩ | ⟨_, _, _, h⟩ <;>
    rw [h]

/-- Every index still scheduled after the send phase was already scheduled
before it. -/
theorem sendPhase_indexes_sub (binary : List Nat) (s : OtaState) (y : Nat)
    (hy : y ∈ (sendPhase binary s).1.indexes_to_transmit) :
    y ∈ s.indexes_to_transmit := by
  rcases sendPhase_state_cases binary s with h | ⟨i, rest, hts, h⟩ | ⟨hts, _, _, h⟩
  · rwa [h] at hy
  · rw [h] at hy
    rw [hts]
    exact List.mem_cons_of_mem i hy
  · rw [h] at hy
    simp at hy

/-- The send phase preserves freedom from duplicates of the retransmit
list. -/
theorem sendPhase_nodup (binary : List Nat) (s : OtaState)
    (hnd : s.indexes_to_transmit.Nodup) :
    (sendPhase binary s).1.indexes_to_transmit.Nodup := by
  rcases sendPhase_state_cases binary s with h | ⟨i, rest, hts, h⟩ | ⟨_, _, _, h⟩
  · rwa [h]
  · rw [h]
    rw [hts] at hnd
    exact (List.nodup_cons.mp hnd).2
  · rw [h]
    exact List.nodup_nil

/-- Membership in a merged NACK list comes from the old list or from the
reported indices. -/
theorem mem_mergeNacks (nas : List Nat) :
    ∀ l y, y ∈ mergeNacks l nas → y ∈ l ∨ y ∈ nas := by
  induction nas with
  | nil => intro l y hy; exact Or.inl hy
  | cons na rest ih =>
    intro l y hy
    unfold mergeNacks at hy
    simp only [List.foldl_cons] at hy
    by_cases hna : na ∈ l
    · rw [if_pos hna] at hy
      rcases ih l y hy with h | h
      · exact Or.inl h
      · exact Or.inr (List.mem_cons_of_mem na h)
    · rw [if_neg hna] at hy
      rcases ih (na :: l) y hy with h | h
      · rcases List.mem_cons.mp h with rfl | h
        · exact Or.inr (List.mem_cons_self _ _)
        · exact Or.inl h
      · exact Or.inr (List.mem_cons_of_mem na h)

/-- Merging reported NACK indices keeps the retransmit list free of
duplicates: an index is pushed only when not already present. -/
theorem mergeNacks_nodup (nas : List Nat) :
    ∀ l, l.Nodup → (mergeNacks l nas).Nodup := by
  induction nas with
  | nil => intro l h; exact h
  | cons na rest ih =>
    intro l hl
    unfold mergeNacks
    simp only [List.foldl_cons]
    by_cases hna : na ∈ l
    · rw [if_pos hna]
      exact ih l hl
    · rw [if_neg hna]
      exact ih (na :: l) (List.nodup_cons.mpr ⟨hna, hl⟩)

/-! ## Transfer-loop invariant helpers -/

/-- If the frontier is within 13 of the acknowledged index, the send phase
keeps it so: an advance happens only under the window guard
`last_acked_index + 12 >= highest_index`. -/
theorem sendPhase_highest_bound (binary : List Nat) (s : OtaState)
    (h : s.highest_index ≤ s.last_acked_index + 13) :
    (sendPhase binary s).1.highest_index ≤ s.last_acked_index + 13 := by
  rcases sendPhase_state_cases binary s with hc | ⟨i, rest, hts, hc⟩ | ⟨_, hg, _, hc⟩ <;>
    rw [hc]
  · exact h
  · exact h
  · show s.highest_index + 1 ≤ s.last_acked_index + 13
    omega

/-- Reachability invariant: the frontier never exceeds the block count. -/
theorem reach_highest_le (binary : List Nat) (s : OtaState) (h : Reach binary s) :
    s.highest_index ≤ index_count binary.length block_size := by
  induction h with
  | init => exact Nat.zero_le _
  | @next s' r _ ih =>
    have hs1 : (sendPhase binary s').1.highest_index
        ≤ index_count binary.length block_size := by
      rcases sendPhase_state_cases binary s' with hc | ⟨i, rest, hts, hc⟩ | ⟨_, _, hne, hc⟩ <;>
        rw [hc]
      · exact ih
      · exact ih
      · show s'.highest_index + 1 ≤ index_count binary.length block_size
        omega
    cases r with
    | otaStatus st => exact hs1
    | otaDoneAck => exact hs1
    | otherPacket => exact hs1
    | readErr => exact hs1

/-- Reachability invariant: the retransmit list never holds duplicates. -/
theorem reach_nodup (binary : List Nat) (s : OtaState) (h : Reach binary s) :
    s.indexes_to_transmit.Nodup := by
  induction h with
  | init => exact List.nodup_nil
  | @next s' r _ ih =>
    have hs1 := sendPhase_nodup binary s' ih
    cases r with
    | otaStatus st => exact mergeNacks_nodup st.not_acked _ hs1
    | otaDoneAck => exact hs1
    | otherPacket => exact hs1
    | readErr => exact hs1

/-- When the retransmit list is empty, any data packet produced by the send
phase carries the frontier index, and the loop was not in its done state. -/
theorem sendPhase_frontier_index (binary : List Nat) (s : OtaState) (i : Nat)
    (d : List Nat) (hts : s.indexes_to_transmit = [])
    (h2 : (sendPhase binary s).2 = SentPacket.otaData i d) :
    i = s.highest_index
    ∧ s.highest_index ≠ index_count binary.length block_size := by
  rcases s with ⟨ts, hi, la⟩
  simp only at hts
  subst hts
  by_cases hd : hi = index_count binary.length block_size
  · exfalso
    simp [sendPhase, hd] at h2
  · refine ⟨?_, hd⟩
    show i = hi
    by_cases hg : la + 12 ≥ hi <;>
      simp [sendPhase, hd, hg] at h2 <;>
      (obtain ⟨h2a, -⟩ := h2; omega)

/-- One round never re-introduces an absent index into the retransmit list
unless the round's status response reports it as not acknowledged. -/
theorem loopStep_not_mem (binary : List Nat) (x : Nat) (s : OtaState) (r : Resp)
    (hx : x ∉ s.indexes_to_transmit)
    (hr : ∀ st, r = Resp.otaStatus st → x ∉ st.not_acked) :
    x ∉ (loopStep binary s r).indexes_to_transmit := by
  have hs1 : x ∉ (sendPhase binary s).1.indexes_to_transmit :=
    fun h => hx (sendPhase_indexes_sub binary s x h)
  cases r with
  | otaStatus st =>
    have hna := hr st rfl
    show x ∉ mergeNacks (sendPhase binary s).1.indexes_to_transmit st.not_acked
    intro hmem
    rcases mem_mergeNacks st.not_acked _ x hmem with h | h
    · exact hs1 h
    · exact hna h
  | otaDoneAck => exact hs1
  | otherPacket => exact hs1
  | readErr => exact hs1

/-- Absence from the retransmit list persists over any run whose status
responses never report the index as not acknowledged. -/
theorem run_not_mem (binary : List Nat) (x : Nat) :
    ∀ (rs : List Resp) (s : OtaState), x ∉ s.indexes_to_transmit →
      (∀ r ∈ rs, ∀ st, r = Resp.otaStatus st → x ∉ st.not_acked) →
      x ∉ (run binary s rs).indexes_to_transmit := by
  intro rs
  induction rs with
  | nil => intro s hx _; exact hx
  | cons r rest ih =>
    intro s hx htr
    show x ∉ (run binary (loopStep binary s r) rest).indexes_to_transmit
    exact ih (loopStep binary s r)
      (loopStep_not_mem binary x s r hx (htr r (List.mem_cons_self r rest)))
      (fun r' hr' => htr r' (List.mem_cons_of_mem r hr'))

/-! ## Claims about the block partition and the transfer loop -/

/-- C2: block partition.  The block count is the ceiling of image length
over block size, as claimed.  The slicing is NOT the claimed half-open
interval: for a 130-byte image with block size 64, block 2 is sliced as
`[128, 129)` — a single byte, dropping the final image byte — where the
claimed formula `[i * bs, min ((i + 1) * bs, len))` gives `[128, 130)` and
a 2-byte block. -/
theorem blocks_C2 :
    (∀ len bs, 0 < bs → index_count len bs = (len + bs - 1) / bs)
    ∧ (block_data (List.range 130) 64 2).length = 1
    ∧ block_end 130 64 2 = 129
    ∧ spec_block_end 130 64 2 = 130 :=
  ⟨fun len bs hbs => index_count_eq_ceil len bs hbs, by decide, by decide, by decide⟩

/-- Witness for C2: the block-count formula evaluated at the 130-byte,
block-size-64 scenario. -/
theorem blocks_C2_witness : index_count 130 64 = (130 + 64 - 1) / 64 :=
  blocks_C2.1 130 64 (by decide)

/-- Counterexample to C3 as stated: starting from the initial state, 13
rounds whose receives all fail leave the loop at
`highest_index = 13`, `last_acked_index = 0`, so
`highest_sent_index - last_acked_index` reaches 13, exceeding the claimed
window bound of 12. -/
theorem window_C3_cex :
    (run binary832 initState (List.replicate 13 Resp.readErr)).highest_index = 13
    ∧ (run binary832 initState (List.replicate 13 Resp.readErr)).last_acked_index = 0
    ∧ ¬(13 - 0 ≤ 12) := by
  refine ⟨by decide, by decide, by decide⟩

/-- C3 (amended): the window bound is 13, not 12.  Whenever every status
response reports a non-regressing `last_acked`, every reachable loop state
satisfies `highest_index ≤ last_acked_index + 13`; the frontier is advanced
only under the guard `last_acked_index + 12 >= highest_index`, so it can end
one past the guard boundary. -/
theorem window_C3 (binary : List Nat) (s : OtaState) (h : ReachMono binary s) :
    s.highest_index ≤ s.last_acked_index + 13 := by
  induction h with
  | init => exact Nat.le_add_left 0 13
  | @next s' r _ hmono ih =>
    have hb := sendPhase_highest_bound binary s' ih
    have hla := sendPhase_last_acked binary s'
    cases r with
    | otaStatus st =>
      have hmo := hmono st rfl
      show (sendPhase binary s').1.highest_index ≤ st.last_acked + 13
      omega
    | otaDoneAck =>
      show (sendPhase binary s').1.highest_index
        ≤ (sendPhase binary s').1.last_acked_index + 13
      omega
    | otherPacket =>
      show (sendPhase binary s').1.highest_index
        ≤ (sendPhase binary s').1.last_acked_index + 13
      omega
    | readErr =>
      show (sendPhase binary s').1.highest_index
        ≤ (sendPhase binary s').1.last_acked_index + 13
      omega

/-- Witness for C3 (amended): the bound at the initial reachable state. -/
theorem window_C3_witness : initState.highest_index ≤ initState.last_acked_index + 13 :=
  window_C3 binary832 initState ReachMono.init

/-- Counterexample to C6 as stated: in the very first round, the send phase
already advances `highest_index` from 0 to 1 before the receive, so after a
timed-out receive the state has changed and the next round sends block 1,
not the identical block 0. -/
theorem timeout_C6_cex :
    (loopStep binary832 initState Resp.readErr).highest_index = 1
    ∧ initState.highest_index = 0
    ∧ (sendPhase binary832 initState).2
        = SentPacket.otaData 0 (block_data binary832 block_size 0)
    ∧ (sendPhase binary832 (loopStep binary832 initState Resp.readErr)).2
        = SentPacket.otaData 1 (block_data binary832 block_size 1)
    ∧ SentPacket.otaData 0 (block_data binary832 block_size 0)
        ≠ SentPacket.otaData 1 (block_data binary832 block_size 1) := by
  exact ⟨by decide, rfl, rfl, rfl, by decide⟩

/-- C6 (amended): a timed-out receive adds nothing beyond the send phase —
the round's state is exactly the send-phase state, with `last_acked_index`
and the retransmit list untouched by the failed receive.  Any index
advancement or retransmit pop observed across a timed-out round happened in
the send phase, before the receive. -/
theorem timeout_C6 (binary : List Nat) (s : OtaState) :
    loopStep binary s Resp.readErr = (sendPhase binary s).1
    ∧ (loopStep binary s Resp.readErr).last_acked_index = s.last_acked_index
    ∧ (loopStep binary s Resp.readErr).indexes_to_transmit
        = (sendPhase binary s).1.indexes_to_transmit := by
  refine ⟨rfl, ?_, rfl⟩
  show (sendPhase binary s).1.last_acked_index = s.last_acked_index
  exact sendPhase_last_acked binary s

/-- C7: retransmission priority.  When the retransmit list is non-empty, the
round sends the popped index — a member of the list, with the frontier left
unchanged; in the spec's scenario (`nacked = [1]`, `last_acked = 2`,
`highest = 4`) the loop sends block 1 and, on the following round, block 4;
and merging reported NACKs keeps the retransmit list duplicate-free. -/
theorem retransmit_C7 :
    (∀ (binary : List Nat) (s : OtaState) (i : Nat) (rest : List Nat),
        s.indexes_to_transmit = i :: rest →
        (sendPhase binary s).2 = SentPacket.otaData i (block_data binary block_size i)
        ∧ i ∈ s.indexes_to_transmit
        ∧ (sendPhase binary s).1.indexes_to_transmit = rest
        ∧ (sendPhase binary s).1.highest_index = s.highest_index)
    ∧ ((sendPhase binary400 scenState).2
          = SentPacket.otaData 1 (block_data binary400 block_size 1)
        ∧ (sendPhase binary400 (loopStep binary400 scenState Resp.readErr)).2
          = SentPacket.otaData 4 (block_data binary400 block_size 4))
    ∧ (∀ l nas : List Nat, l.Nodup → (mergeNacks l nas).Nodup) := by
  refine ⟨?_, ⟨rfl, rfl⟩, fun l nas h => mergeNacks_nodup nas l h⟩
  intro binary s i rest hts
  rcases s with ⟨ts, hi, la⟩
  simp only at hts
  subst hts
  refine ⟨by simp [sendPhase], by simp, by simp [sendPhase], by simp [sendPhase]⟩

/-- Witness for C7: the pop behaviour at the spec's scenario state. -/
theorem retransmit_C7_witness :
    (sendPhase binary400 scenState).2
      = SentPacket.otaData 1 (block_data binary400 block_size 1)
    ∧ 1 ∈ scenState.indexes_to_transmit
    ∧ (sendPhase binary400 scenState).1.indexes_to_transmit = []
    ∧ (sendPhase binary400 scenState).1.highest_index = scenState.highest_index :=
  retransmit_C7.1 binary400 scenState 1 [] rfl

/-- C8: the transfer loop breaks out (successful termination) exactly on the
done-acknowledgment response; a status response, any other packet, and any
read error (timeouts included) all continue the loop. -/
theorem exit_C8 (binary : List Nat) (s : OtaState) (r : Resp) :
    (∃ s', otaRound binary s r = RoundOut.done s') ↔ r = Resp.otaDoneAck := by
  cases r <;> simp [otaRound]

/-- C9: every reachable loop state keeps `highest_index` at or below the
block count, and every data packet the send phase emits from the frontier
(empty retransmit list) carries an index strictly below the block count,
whose slice bounds form a valid range inside the image. -/
theorem frontier_C9 :
    (∀ (binary : List Nat) (s : OtaState), Reach binary s →
        s.highest_index ≤ index_count binary.length block_size)
    ∧ (∀ (binary : List Nat) (s : OtaState) (i : Nat) (d : List Nat),
        Reach binary s → s.indexes_to_transmit = [] →
        (sendPhase binary s).2 = SentPacket.otaData i d →
        i < index_count binary.length block_size
        ∧ block_begin block_size i ≤ block_end binary.length block_size i
        ∧ block_end binary.length block_size i ≤ binary.length) := by
  refine ⟨fun binary s h => reach_highest_le binary s h, ?_⟩
  intro binary s i d hre hts h2
  obtain ⟨hi_eq, hne⟩ := sendPhase_frontier_index binary s i d hts h2
  have hle := reach_highest_le binary s hre
  have hlt : i < index_count binary.length block_size := by omega
  have hmul : i * block_size < binary.length :=
    mul_lt_of_lt_index_count _ _ _ (by decide) hlt
  obtain ⟨hb1, hb2⟩ := block_bounds binary.length block_size i (by decide) hmul
  exact ⟨hlt, hb1, hb2⟩

/-- Witness for C9: the first frontier send on a 130-byte image. -/
theorem frontier_C9_witness :
    0 < index_count (List.range 130).length block_size
    ∧ block_begin block_size 0 ≤ block_end (List.range 130).length block_size 0
    ∧ block_end (List.range 130).length block_size 0 ≤ (List.range 130).length :=
  frontier_C9.2 (List.range 130) initState 0 (block_data (List.range 130) block_size 0)
    Reach.init rfl rfl

/-- C10: popping is permanent.  Reachable retransmit lists are
duplicate-free; popping an index removes it from the list; and an absent
index stays absent over any sequence of rounds whose status responses never
report it as not acknowledged again. -/
theorem pop_C10 :
    (∀ (binary : List Nat) (s : OtaState), Reach binary s →
        s.indexes_to_transmit.Nodup)
    ∧ (∀ (binary : List Nat) (s : OtaState) (i : Nat) (rest : List Nat),
        s.indexes_to_transmit = i :: rest → s.indexes_to_transmit.Nodup →
        i ∉ (sendPhase binary s).1.indexes_to_transmit)
    ∧ (∀ (binary : List Nat) (x : Nat) (s : OtaState) (rs : List Resp),
        x ∉ s.indexes_to_transmit →
        (∀ r ∈ rs, ∀ st, r = Resp.otaStatus st → x ∉ st.not_acked) →
        x ∉ (run binary s rs).indexes_to_transmit) := by
  refine ⟨fun binary s h => reach_nodup binary s h, ?_, ?_⟩
  · intro binary s i rest hts hnd
    rcases s with ⟨ts, hi, la⟩
    simp only at hts
    subst hts
    have hrest : (sendPhase binary ⟨i :: rest, hi, la⟩).1.indexes_to_transmit = rest := by
      simp [sendPhase]
    rw [hrest]
    rw [List.nodup_cons] at hnd
    exact hnd.1
  · intro binary x s rs hx htr
    exact run_not_mem binary x rs s hx htr

/-- Witness for C10: index 5, absent initially, stays absent over a
timed-out round. -/
theorem pop_C10_witness :
    (5 : Nat) ∉ (run (List.range 130) initState [Resp.readErr]).indexes_to_transmit :=
  pop_C10.2.2 (List.range 130) 5 initState [Resp.readErr] (by simp [initState])
    (fun r hr st hst => by
      rw [List.mem_singleton] at hr
      subst hr
      cases hst)
